import Mathlib

/-!
Verification of the point-cloud processing core of the 3Dscan repository.

The embedded source files are `src/js/pointCloudProcessor.js` and
`src/js/workers/pointCloudWorker.js`.  JavaScript numbers are modelled by
`ℚ` (exact arithmetic); comparisons that the source makes through
`Math.sqrt` are modelled through `Real.sqrt` on the cast to `ℝ`, with a
decidable rational bridge (`sqrtLe`) proved equivalent.  The flat
`[x, y, z, x, y, z, ...]` buffers of the worker are modelled as lists of
points (the worker always walks them with stride 3).
-/

set_option maxHeartbeats 1000000
set_option linter.unusedVariables false
set_option linter.unreachableTactic false
set_option linter.unusedTactic false

namespace ThreeDScan

/-- A 3D point, the per-point record of the data model. -/
structure Point where
  x : ℚ
  y : ℚ
  z : ℚ
  deriving DecidableEq, Repr

/-- Squared distance to the origin, the argument of the square root in
`distanceFilter` (pointCloudWorker.js line 144: `x*x + y*y + z*z`). -/
def distSq (p : Point) : ℚ :=
  p.x * p.x + p.y * p.y + p.z * p.z

/-- Decidable rational form of the comparison `Math.sqrt s <= d`; the
lemma `sqrtLe_iff` below proves it equivalent to
`Real.sqrt s ≤ d` over the reals. -/
def sqrtLe (s d : ℚ) : Bool :=
  decide (0 ≤ d ∧ s ≤ d * d)

/-- The comparison `sqrtLe` coincides with the real square-root
comparison performed by the source. -/
theorem sqrtLe_iff (s d : ℚ) :
    sqrtLe s d = true ↔ Real.sqrt (s : ℝ) ≤ (d : ℝ) := by
  rw [sqrtLe, decide_eq_true_iff, Real.sqrt_le_iff]
  constructor
  · rintro ⟨hd, hsd⟩
    refine ⟨by exact_mod_cast hd, ?_⟩
    have h : (s : ℝ) ≤ (d : ℝ) * (d : ℝ) := by exact_mod_cast hsd
    calc (s : ℝ) ≤ (d : ℝ) * (d : ℝ) := h
      _ = (d : ℝ) ^ 2 := by ring
  · rintro ⟨hd, hsd⟩
    refine ⟨by exact_mod_cast hd, ?_⟩
    have h : (s : ℝ) ≤ (d : ℝ) * (d : ℝ) := by
      calc (s : ℝ) ≤ (d : ℝ) ^ 2 := hsd
        _ = (d : ℝ) * (d : ℝ) := by ring
    exact_mod_cast h

/-- Source function `distanceFilter` (pointCloudWorker.js lines 135-161): walk the
points in order and push a point onto the output exactly when
`Math.sqrt(x*x + y*y + z*z) <= maxDistance`. -/
def distanceFilter : List Point → ℚ → List Point
  | [], _ => []
  | p :: ps, maxDistance =>
    if sqrtLe (distSq p) maxDistance then p :: distanceFilter ps maxDistance
    else distanceFilter ps maxDistance

/-- Source function `statisticalOutlierRemoval` (pointCloudWorker.js lines 108-123).
The body only builds a scratch `positions` array and then returns the
original data unchanged; the source comments call it a demonstration
stub. -/
def statisticalOutlierRemoval (pointData : List Point) (stdDevMultiplier : ℚ) : List Point :=
  pointData

/-- Source function `radiusOutlierRemoval` (pointCloudWorker.js lines 126-132): a stub
that returns the original data unchanged. -/
def radiusOutlierRemoval (pointData : List Point) (radius : ℚ) (minNeighbors : ℕ) : List Point :=
  pointData

/-- The method dispatch of `filterPointCloud` (pointCloudWorker.js
lines 79-105).  `threshold` and `method` come from the options object;
any method other than `statistical` and `radius` falls through to the
distance filter.  There is no input-length guard in the source. -/
def filterPointCloud (pointData : List Point) (threshold : ℚ) (method : String) : List Point :=
  if method = "statistical" then statisticalOutlierRemoval pointData threshold
  else if method = "radius" then radiusOutlierRemoval pointData threshold 2
  else distanceFilter pointData threshold

/-- Integer voxel key `floor(c / voxelSize)` per axis
(pointCloudWorker.js lines 223-227).  The string key `"vx,vy,vz"` of
the source is injective on integer triples, so it is modelled by the
triple itself. -/
def voxelKey (voxelSize : ℚ) (p : Point) : ℤ × ℤ × ℤ :=
  (⌊p.x / voxelSize⌋, ⌊p.y / voxelSize⌋, ⌊p.z / voxelSize⌋)

/-- One entry of the `voxels` map of `voxelDownsampling`: running
component sums and the point count of one voxel. -/
structure VoxelEntry where
  key : ℤ × ℤ × ℤ
  sx : ℚ
  sy : ℚ
  sz : ℚ
  count : ℕ
  deriving DecidableEq, Repr

/-- One step of the accumulation loop of `voxelDownsampling`
(pointCloudWorker.js lines 217-250).  A JavaScript `Map` keeps keys in
insertion order and updates values in place, which is modelled by an
ordered association list: a present key is updated where it stands, a
new key is appended at the end. -/
def addToVoxels (voxelSize : ℚ) (acc : List VoxelEntry) (p : Point) : List VoxelEntry :=
  let k := voxelKey voxelSize p
  if acc.any (fun e => decide (e.key = k)) then
    acc.map (fun e =>
      if e.key = k then
        { key := e.key, sx := e.sx + p.x, sy := e.sy + p.y, sz := e.sz + p.z,
          count := e.count + 1 }
      else e)
  else
    acc ++ [{ key := k, sx := p.x, sy := p.y, sz := p.z, count := 1 }]

/-- Source function `voxelDownsampling` (pointCloudWorker.js lines 214-275): accumulate
per-voxel sums and counts over one pass, then emit one centroid per
occupied voxel in map (insertion) order. -/
def voxelDownsampling (pointData : List Point) (voxelSize : ℚ) : List Point :=
  let voxels := pointData.foldl (addToVoxels voxelSize) []
  voxels.map (fun e => ⟨e.sx / (e.count : ℚ), e.sy / (e.count : ℚ), e.sz / (e.count : ℚ)⟩)

/-- Source function `randomDownsampling` (pointCloudWorker.js lines 190-211), with the
`Math.random()` stream made explicit as an oracle `rng` indexed by the
point position: a rate of at least 1 returns the input, otherwise
point `i` is kept when `rng i <= rate`. -/
def randomDownsampling (rng : ℕ → ℚ) (pointData : List Point) (rate : ℚ) : List Point :=
  if 1 ≤ rate then pointData
  else ((pointData.enum).filter (fun q => decide (rng q.1 ≤ rate))).map Prod.snd

/-- The method dispatch of `downsamplePointCloud` (pointCloudWorker.js
lines 164-187): only the method `voxel` selects voxel downsampling,
every other method falls through to random downsampling. -/
def downsamplePointCloud (rng : ℕ → ℚ) (pointData : List Point) (rate : ℚ)
    (method : String) (voxelSize : ℚ) : List Point :=
  if method = "voxel" then voxelDownsampling pointData voxelSize
  else randomDownsampling rng pointData rate

/-- Entry `matrix[i]` of a flat JavaScript matrix array (0 when the
index is out of range). -/
def matAt (m : List ℚ) (i : ℕ) : ℚ :=
  m.getD i 0

/-- Source function `applyTransformation` (pointCloudWorker.js lines 298-322): each
point is mapped through the first three rows of the row-major matrix
applied to `(x, y, z, 1)`.  The fourth matrix row (entries 12 to 15)
is never read and no division by a `w` component is performed. -/
def applyTransformation (pointData : List Point) (matrix : List ℚ) : List Point :=
  pointData.map (fun p =>
    ⟨matAt matrix 0 * p.x + matAt matrix 1 * p.y + matAt matrix 2 * p.z + matAt matrix 3,
     matAt matrix 4 * p.x + matAt matrix 5 * p.y + matAt matrix 6 * p.z + matAt matrix 7,
     matAt matrix 8 * p.x + matAt matrix 9 * p.y + matAt matrix 10 * p.z + matAt matrix 11⟩)

/-- Source function `applyTransformLocal` (pointCloudProcessor.js lines 241-260): full
homogeneous transform in column-major layout with division of x, y, z
by the resulting w component (colour channels are not modelled; the
null-matrix early return is outside the claims). -/
def applyTransformLocal (points : List Point) (matrix : List ℚ) : List Point :=
  points.map (fun p =>
    let x := matAt matrix 0 * p.x + matAt matrix 4 * p.y + matAt matrix 8 * p.z + matAt matrix 12
    let y := matAt matrix 1 * p.x + matAt matrix 5 * p.y + matAt matrix 9 * p.z + matAt matrix 13
    let z := matAt matrix 2 * p.x + matAt matrix 6 * p.y + matAt matrix 10 * p.z + matAt matrix 14
    let w := matAt matrix 3 * p.x + matAt matrix 7 * p.y + matAt matrix 11 * p.z + matAt matrix 15
    ⟨x / w, y / w, z / w⟩)

/-- Worker-side `buildOctree` (pointCloudWorker.js lines 353-365): a
stub that returns the original data unchanged. -/
def workerBuildOctree (pointData : List Point) : List Point :=
  pointData

/-- Source function `buildKdTree` (pointCloudWorker.js lines 368-380): a stub that
returns the original data unchanged. -/
def buildKdTree (pointData : List Point) : List Point :=
  pointData

/-- Source function `reorderPoints` (pointCloudWorker.js lines 383-394): a stub that
returns the original data unchanged. -/
def reorderPoints (pointData : List Point) : List Point :=
  pointData

/-- The method dispatch of `optimizeDataStructure` (pointCloudWorker.js
lines 325-350): `octree` and `kdtree` select the respective stubs,
every other method falls through to `reorderPoints`. -/
def optimizeDataStructure (pointData : List Point) (method : String) : List Point :=
  if method = "octree" then workerBuildOctree pointData
  else if method = "kdtree" then buildKdTree pointData
  else reorderPoints pointData

/-- Axis-aligned bounding box with min and max corner points. -/
structure BBox where
  lo : Point
  hi : Point
  deriving DecidableEq, Repr

/-- One octree node of `buildOctree` (pointCloudProcessor.js lines
78-163): a bounding box (the `null` sentinel modelled by `Option`), a
direct point list, and either no children (`lf`) or exactly 8
children (`nd`). -/
inductive ONode where
  | lf (boundingBox : Option BBox) (points : List Point)
  | nd (boundingBox : Option BBox) (points : List Point)
      (c0 c1 c2 c3 c4 c5 c6 c7 : ONode)
  deriving DecidableEq, Repr

/-- Source function `calculateBoundingBox` (pointCloudProcessor.js lines 88-105):
`null` for an empty list, otherwise the componentwise min/max fold;
the `±Infinity` seeds of the source are modelled by seeding the fold
with the first point. -/
def calculateBoundingBox : List Point → Option BBox
  | [] => none
  | p :: ps => some (ps.foldl (fun bb q =>
      ⟨⟨min bb.lo.x q.x, min bb.lo.y q.y, min bb.lo.z q.z⟩,
       ⟨max bb.hi.x q.x, max bb.hi.y q.y, max bb.hi.z q.z⟩⟩) ⟨p, p⟩)

/-- Midpoint of a bounding box (pointCloudProcessor.js lines 109-111). -/
def bbMid (bb : BBox) : Point :=
  ⟨(bb.lo.x + bb.hi.x) / 2, (bb.lo.y + bb.hi.y) / 2, (bb.lo.z + bb.hi.z) / 2⟩

/-- Child octant selection (pointCloudProcessor.js lines 133-135):
`(x > midX ? 1 : 0) + (y > midY ? 2 : 0) + (z > midZ ? 4 : 0)`. -/
def childIndex (mid : Point) (p : Point) : ℕ :=
  (if mid.x < p.x then 1 else 0) + (if mid.y < p.y then 2 else 0) +
    (if mid.z < p.z then 4 else 0)

/-- Bounding box of child octant `i` (pointCloudProcessor.js lines
116-127), following the bit tests `i & 1`, `i & 2`, `i & 4`. -/
def octChildBox (bb : BBox) (i : ℕ) : BBox :=
  let mid := bbMid bb
  ⟨⟨if i &&& 1 ≠ 0 then mid.x else bb.lo.x,
    if i &&& 2 ≠ 0 then mid.y else bb.lo.y,
    if i &&& 4 ≠ 0 then mid.z else bb.lo.z⟩,
   ⟨if i &&& 1 ≠ 0 then bb.hi.x else mid.x,
    if i &&& 2 ≠ 0 then bb.hi.y else mid.y,
    if i &&& 4 ≠ 0 then bb.hi.z else mid.z⟩⟩

/-- Points of `pts` assigned to child octant `i` (pointCloudProcessor.js
lines 131-137); the push loop preserves the input order, which the
stable `filter` reproduces. -/
def octantPoints (bb : BBox) (pts : List Point) (i : ℕ) : List Point :=
  pts.filter (fun p => decide (childIndex (bbMid bb) p = i))

/-- Source function `subdivideNode` (pointCloudProcessor.js lines 107-150) for a node
with bounding box `bb` holding `pts`.  The source recursion carries
the node depth and recurses into a child only while
`depth < maxDepth` and the child holds more than `minPointsPerNode`
points; here the remaining budget `maxDepth - depth` is the recursion
argument, so `depth < maxDepth` becomes `remaining ≠ 0` (the two are
equivalent along every call chain, including the unconditional
subdivision of the root at depth 0).  The node always creates its 8
children, assigns every point to exactly one child, and clears its
own point list. -/
def subdivideNode (minPointsPerNode : ℕ) (bb : BBox) (pts : List Point) : ℕ → ONode
  | 0 =>
    ONode.nd (some bb) []
      (ONode.lf (some (octChildBox bb 0)) (octantPoints bb pts 0))
      (ONode.lf (some (octChildBox bb 1)) (octantPoints bb pts 1))
      (ONode.lf (some (octChildBox bb 2)) (octantPoints bb pts 2))
      (ONode.lf (some (octChildBox bb 3)) (octantPoints bb pts 3))
      (ONode.lf (some (octChildBox bb 4)) (octantPoints bb pts 4))
      (ONode.lf (some (octChildBox bb 5)) (octantPoints bb pts 5))
      (ONode.lf (some (octChildBox bb 6)) (octantPoints bb pts 6))
      (ONode.lf (some (octChildBox bb 7)) (octantPoints bb pts 7))
  | r + 1 =>
    let child : ℕ → ONode := fun i =>
      if minPointsPerNode < (octantPoints bb pts i).length then
        subdivideNode minPointsPerNode (octChildBox bb i) (octantPoints bb pts i) r
      else ONode.lf (some (octChildBox bb i)) (octantPoints bb pts i)
    ONode.nd (some bb) []
      (child 0) (child 1) (child 2) (child 3) (child 4) (child 5) (child 6) (child 7)

/-- Source function `buildOctree` (pointCloudProcessor.js lines 152-162): compute the
bounding box, create the root owning a copy of all points, and
subdivide it when it holds more than `minPointsPerNode` points.  The
`ONode.lf none` branch under a nonempty list is unreachable, since a
nonempty list always has a bounding box. -/
def buildOctree (points : List Point) (maxDepth minPointsPerNode : ℕ) : ONode :=
  if minPointsPerNode < points.length then
    match calculateBoundingBox points with
    | some bb => subdivideNode minPointsPerNode bb points maxDepth
    | none => ONode.lf none points
  else ONode.lf (calculateBoundingBox points) points

/-- Direct point list of a node (the `points` field). -/
def directPoints : ONode → List Point
  | ONode.lf _ pts => pts
  | ONode.nd _ pts _ _ _ _ _ _ _ _ => pts

/-- Whether a node is a leaf (`children === null` in the source). -/
def isLeaf : ONode → Bool
  | ONode.lf _ _ => true
  | ONode.nd _ _ _ _ _ _ _ _ _ _ => false

/-- Concatenation of the point lists of all leaves of a subtree, in
child-index order. -/
def leafPoints : ONode → List Point
  | ONode.lf _ pts => pts
  | ONode.nd _ _ c0 c1 c2 c3 c4 c5 c6 c7 =>
    leafPoints c0 ++ leafPoints c1 ++ leafPoints c2 ++ leafPoints c3 ++
      leafPoints c4 ++ leafPoints c5 ++ leafPoints c6 ++ leafPoints c7

/-- All nodes of a subtree paired with their depth, the subtree root
being at depth `d`. -/
def subnodesFrom : ONode → ℕ → List (ONode × ℕ)
  | ONode.lf bb pts, d => [(ONode.lf bb pts, d)]
  | ONode.nd bb pts c0 c1 c2 c3 c4 c5 c6 c7, d =>
    (ONode.nd bb pts c0 c1 c2 c3 c4 c5 c6 c7, d) ::
      (subnodesFrom c0 (d + 1) ++ subnodesFrom c1 (d + 1) ++ subnodesFrom c2 (d + 1) ++
        subnodesFrom c3 (d + 1) ++ subnodesFrom c4 (d + 1) ++ subnodesFrom c5 (d + 1) ++
        subnodesFrom c6 (d + 1) ++ subnodesFrom c7 (d + 1))

/-- Settlement outcome of one PointCloudProcessor request promise. -/
inductive PromiseOutcome where
  | resolved (points : List Point)
  | rejected (message : String)
  deriving DecidableEq, Repr

/-- The module state of pointCloudProcessor.js touched by the request
entry points. -/
structure ProcState where
  rawPointData : Option (List Point)
  processedPointData : Option (List Point)
  deriving DecidableEq, Repr

/-- A terminal worker reply for one request as dispatched by
`worker.onmessage` (pointCloudProcessor.js lines 21-66): a completion
message carrying points, or an `error` message carrying a message
string (the handler then invokes the stored callback with
`(null, new Error(message))`). -/
inductive WorkerReply where
  | success (points : List Point)
  | failure (message : String)
  deriving DecidableEq, Repr

/-- Settlement of a `processData` request when the terminal worker
reply arrives (pointCloudProcessor.js lines 50-57 and 410-417): on
error the promise rejects and the state is untouched; on success
`processedPointData` is replaced and the promise resolves. -/
def settleProcessData (st : ProcState) (reply : WorkerReply) : ProcState × PromiseOutcome :=
  match reply with
  | WorkerReply.success pts =>
    ({ st with processedPointData := some pts }, PromiseOutcome.resolved pts)
  | WorkerReply.failure msg => (st, PromiseOutcome.rejected msg)

/-- Settlement of an `applyFilter` request (pointCloudProcessor.js
lines 448-455): identical callback body to `processData`. -/
def settleApplyFilter (st : ProcState) (reply : WorkerReply) : ProcState × PromiseOutcome :=
  match reply with
  | WorkerReply.success pts =>
    ({ st with processedPointData := some pts }, PromiseOutcome.resolved pts)
  | WorkerReply.failure msg => (st, PromiseOutcome.rejected msg)

/-- Settlement of an `applyTransform` request (pointCloudProcessor.js
lines 496-503): identical callback body to `processData`. -/
def settleApplyTransform (st : ProcState) (reply : WorkerReply) : ProcState × PromiseOutcome :=
  match reply with
  | WorkerReply.success pts =>
    ({ st with processedPointData := some pts }, PromiseOutcome.resolved pts)
  | WorkerReply.failure msg => (st, PromiseOutcome.rejected msg)

/-- The spec's `distance3D`: exact Euclidean distance
`sqrt(Δx² + Δy² + Δz²)` over the reals. -/
noncomputable def dist3D (a b : Point) : ℝ :=
  Real.sqrt (((a.x - b.x : ℚ) : ℝ) ^ 2 + ((a.y - b.y : ℚ) : ℝ) ^ 2 + ((a.z - b.z : ℚ) : ℝ) ^ 2)

/-- Modelled from the spec (the statistical filter of pointCloudWorker.js
is a stub, so the rejection rule exists only in the spec): the
per-point mean distance to all other points of the set. -/
noncomputable def meanNeighborDist (pts : List Point) (p : Point) : ℝ :=
  ((pts.filter (fun q => decide (q ≠ p))).map (fun q => dist3D p q)).sum /
    ((pts.filter (fun q => decide (q ≠ p))).length : ℝ)

/-- Modelled from the spec: the global mean of the per-point mean
neighbor distances. -/
noncomputable def globalMeanDist (pts : List Point) : ℝ :=
  (pts.map (meanNeighborDist pts)).sum / (pts.length : ℝ)

/-- Modelled from the spec: the global (population) standard deviation
of the per-point mean neighbor distances. -/
noncomputable def globalStdDist (pts : List Point) : ℝ :=
  Real.sqrt ((pts.map (fun p => (meanNeighborDist pts p - globalMeanDist pts) ^ 2)).sum /
    (pts.length : ℝ))

/-- Row-major 4x4 matrix view of a flat array: entry `(i, j)` is
`matrix[4*i + j]` (the layout read by the worker transform). -/
def rowMajor (m : List ℚ) : Matrix (Fin 4) (Fin 4) ℚ :=
  Matrix.of fun i j => matAt m (4 * (i : ℕ) + (j : ℕ))

/-- Column-major 4x4 matrix view of a flat array: entry `(i, j)` is
`matrix[4*j + i]` (the layout read by `applyTransformLocal`). -/
def colMajor (m : List ℚ) : Matrix (Fin 4) (Fin 4) ℚ :=
  Matrix.of fun i j => matAt m (4 * (j : ℕ) + (i : ℕ))

/-- The spec's `applyMatrix`: full homogeneous transform of
`(x, y, z, 1)` by a 4x4 matrix, dividing the first three components
by the resulting w component. -/
def applyMatrixSpec (M : Matrix (Fin 4) (Fin 4) ℚ) (p : Point) : Point :=
  let r := M.mulVec ![p.x, p.y, p.z, 1]
  ⟨r 0 / r 3, r 1 / r 3, r 2 / r 3⟩

/-- Application of only the first three rows of a 4x4 matrix to
`(x, y, z, 1)`, with no division by w. -/
def affineRowApplySpec (M : Matrix (Fin 4) (Fin 4) ℚ) (p : Point) : Point :=
  let r := M.mulVec ![p.x, p.y, p.z, 1]
  ⟨r 0, r 1, r 2⟩

/-- First-occurrence deduplication: keeps the first copy of each
element, in order of first appearance (the key order of a JavaScript
`Map` filled by one pass). -/
def dedupFirst {α : Type} [DecidableEq α] : List α → List α
  | [] => []
  | a :: l => a :: dedupFirst (l.filter (fun b => decide (b ≠ a)))
termination_by l => l.length
decreasing_by
  simpa using Nat.lt_succ_of_le (List.length_filter_le _ l)

/-- Points of `pts` falling into the voxel with key `k`. -/
def groupOf (voxelSize : ℚ) (pts : List Point) (k : ℤ × ℤ × ℤ) : List Point :=
  pts.filter (fun p => decide (voxelKey voxelSize p = k))

/-- Arithmetic-mean centroid of a point list. -/
def centroid (pts : List Point) : Point :=
  ⟨(pts.map Point.x).sum / (pts.length : ℚ),
   (pts.map Point.y).sum / (pts.length : ℚ),
   (pts.map Point.z).sum / (pts.length : ℚ)⟩

/-- The voxel entry fully aggregating the group of key `k` in `pts`. -/
def entryFor (voxelSize : ℚ) (pts : List Point) (k : ℤ × ℤ × ℤ) : VoxelEntry :=
  { key := k,
    sx := ((groupOf voxelSize pts k).map Point.x).sum,
    sy := ((groupOf voxelSize pts k).map Point.y).sum,
    sz := ((groupOf voxelSize pts k).map Point.z).sum,
    count := (groupOf voxelSize pts k).length }

/-- Adds to an existing voxel entry the aggregate of the group of its
key in the remaining points `pts`. -/
def bump (voxelSize : ℚ) (pts : List Point) (e : VoxelEntry) : VoxelEntry :=
  { key := e.key,
    sx := e.sx + ((groupOf voxelSize pts e.key).map Point.x).sum,
    sy := e.sy + ((groupOf voxelSize pts e.key).map Point.y).sum,
    sz := e.sz + ((groupOf voxelSize pts e.key).map Point.z).sum,
    count := e.count + (groupOf voxelSize pts e.key).length }

/-! Theorems. -/

/-- The push loop of the distance filter is the stable filter by the
square-root comparison. -/
theorem distanceFilter_eq_filter (pts : List Point) (maxD : ℚ) :
    distanceFilter pts maxD = pts.filter (fun p => sqrtLe (distSq p) maxD) := by
  induction pts with
  | nil => rfl
  | cons p ps ih =>
    by_cases h : sqrtLe (distSq p) maxD = true <;>
      simp [distanceFilter, List.filter_cons, h, ih]

/-- C6: filtering with the distance method returns the subsequence of
input points whose Euclidean distance to the origin is at most
`maxDistance`, in the original relative order; the concrete input
`[(0,0,0), (10,0,0), (0,10,0)]` with `maxDistance = 5` keeps only the
origin. -/
theorem c6_distance_method :
    (∀ (pts : List Point) (maxD : ℚ),
      (distanceFilter pts maxD).Sublist pts ∧
      (∀ p : Point, Real.sqrt ((distSq p : ℚ) : ℝ) ≤ (maxD : ℝ) →
        (distanceFilter pts maxD).count p = pts.count p) ∧
      (∀ p : Point, ¬ Real.sqrt ((distSq p : ℚ) : ℝ) ≤ (maxD : ℝ) →
        p ∉ distanceFilter pts maxD)) ∧
    distanceFilter [⟨0, 0, 0⟩, ⟨10, 0, 0⟩, ⟨0, 10, 0⟩] 5 = [⟨0, 0, 0⟩] := by
  refine ⟨fun pts maxD => ⟨?_, ?_, ?_⟩, by norm_num [distanceFilter, distSq, sqrtLe]⟩
  · rw [distanceFilter_eq_filter]
    exact List.filter_sublist pts
  · intro p hp
    rw [distanceFilter_eq_filter]
    exact List.count_filter ((sqrtLe_iff _ _).mpr hp)
  · intro p hp hmem
    rw [distanceFilter_eq_filter] at hmem
    exact hp ((sqrtLe_iff _ _).mp (List.mem_filter.mp hmem).2)

/-- Witness for c6_distance_method: the origin is within distance 5
of itself, and the theorem preserves its count on the concrete
scenario input. -/
theorem c6_distance_method_witness :
    Real.sqrt ((distSq ⟨0, 0, 0⟩ : ℚ) : ℝ) ≤ ((5 : ℚ) : ℝ) ∧
    (distanceFilter [⟨0, 0, 0⟩, ⟨10, 0, 0⟩, ⟨0, 10, 0⟩] 5).count ⟨0, 0, 0⟩ =
      ([⟨0, 0, 0⟩, ⟨10, 0, 0⟩, ⟨0, 10, 0⟩] : List Point).count ⟨0, 0, 0⟩ := by
  have h0 : (distSq ⟨0, 0, 0⟩ : ℚ) = 0 := by norm_num [distSq]
  have h : Real.sqrt ((distSq ⟨0, 0, 0⟩ : ℚ) : ℝ) ≤ ((5 : ℚ) : ℝ) := by
    rw [h0]
    push_cast
    rw [Real.sqrt_zero]
    norm_num
  exact ⟨h, (c6_distance_method.1 [⟨0, 0, 0⟩, ⟨10, 0, 0⟩, ⟨0, 10, 0⟩] 5).2.1 ⟨0, 0, 0⟩ h⟩

/-- C8 counterexample: a single point farther than the threshold is
removed by the distance branch of `filterPointCloud`, so an input
with fewer than 2 points is not always returned unchanged. -/
theorem c8_small_input_cex :
    ([(⟨10, 0, 0⟩ : Point)]).length < 2 ∧
    filterPointCloud [⟨10, 0, 0⟩] 5 ("distance") ≠ [⟨10, 0, 0⟩] := by
  refine ⟨by norm_num, ?_⟩
  unfold filterPointCloud
  rw [if_neg (by decide), if_neg (by decide)]
  norm_num [distanceFilter, distSq, sqrtLe]

/-- C8 as amended: the empty input is returned unchanged by every
filter method, and the statistical and radius methods return every
input unchanged; the distance method applies its test even to a
single point. -/
theorem c8_small_input_amended :
    ∀ (pts : List Point) (threshold : ℚ) (method : String),
      (pts = [] → filterPointCloud pts threshold method = pts) ∧
      ((method = "statistical" ∨ method = "radius") →
        filterPointCloud pts threshold method = pts) := by
  intro pts threshold method
  constructor
  · rintro rfl
    by_cases h1 : method = "statistical" <;> by_cases h2 : method = "radius" <;>
      simp [filterPointCloud, statisticalOutlierRemoval, radiusOutlierRemoval,
        distanceFilter, h1, h2]
  · rintro (rfl | rfl) <;>
      simp [filterPointCloud, statisticalOutlierRemoval, radiusOutlierRemoval]

/-- Witness for c8_small_input_amended at concrete inputs. -/
theorem c8_small_input_amended_witness :
    filterPointCloud [] 1 ("statistical") = ([] : List Point) ∧
    filterPointCloud [⟨1, 2, 3⟩] 1 ("radius") = [⟨1, 2, 3⟩] :=
  ⟨(c8_small_input_amended [] 1 "statistical").1 rfl,
   (c8_small_input_amended [⟨1, 2, 3⟩] 1 "radius").2 (Or.inr rfl)⟩

/-- C7 counterexample: an unknown filter method name does not surface
any error; the worker silently runs the distance filter, observably
modifying the data. -/
theorem c7_unknown_method_cex :
    (("bogus" : String) ≠ "statistical" ∧ ("bogus" : String) ≠ "radius") ∧
    filterPointCloud [⟨10, 0, 0⟩] 5 ("bogus") = distanceFilter [⟨10, 0, 0⟩] 5 ∧
    filterPointCloud [⟨10, 0, 0⟩] 5 ("bogus") ≠ [⟨10, 0, 0⟩] := by
  refine ⟨⟨by decide, by decide⟩, ?_, ?_⟩
  · unfold filterPointCloud
    rw [if_neg (by decide), if_neg (by decide)]
  · unfold filterPointCloud
    rw [if_neg (by decide), if_neg (by decide)]
    norm_num [distanceFilter, distSq, sqrtLe]

/-- C7 as amended: an unknown method name is silently substituted by a
default stage: unknown filter methods run the distance filter,
unknown downsample methods run random downsampling, and unknown
optimize methods run `reorderPoints`; the optimize stage is the
identity on the data for every method. -/
theorem c7_unknown_method_fallback :
    ∀ (pts : List Point) (threshold rate voxelSize : ℚ) (rng : ℕ → ℚ) (method : String),
      (method ≠ "statistical" → method ≠ "radius" →
        filterPointCloud pts threshold method = distanceFilter pts threshold) ∧
      (method ≠ "voxel" →
        downsamplePointCloud rng pts rate method voxelSize = randomDownsampling rng pts rate) ∧
      optimizeDataStructure pts method = pts := by
  intro pts threshold rate voxelSize rng method
  refine ⟨fun h1 h2 => ?_, fun h3 => ?_, ?_⟩
  · simp [filterPointCloud, h1, h2]
  · simp [downsamplePointCloud, h3]
  · by_cases h1 : method = "octree" <;> by_cases h2 : method = "kdtree" <;>
      simp [optimizeDataStructure, workerBuildOctree, buildKdTree, reorderPoints, h1, h2]

/-- Witness for c7_unknown_method_fallback at a concrete unknown
method name. -/
theorem c7_unknown_method_fallback_witness :
    (("mystery" : String) ≠ "statistical" ∧ ("mystery" : String) ≠ "radius" ∧
      ("mystery" : String) ≠ "voxel") ∧
    filterPointCloud [⟨2, 0, 0⟩] 1 ("mystery") = distanceFilter [⟨2, 0, 0⟩] 1 ∧
    downsamplePointCloud (fun _ => 0) [⟨2, 0, 0⟩] 1 ("mystery") 1 =
      randomDownsampling (fun _ => 0) [⟨2, 0, 0⟩] 1 ∧
    optimizeDataStructure [⟨2, 0, 0⟩] ("mystery") = [⟨2, 0, 0⟩] :=
  ⟨⟨by decide, by decide, by decide⟩,
   (c7_unknown_method_fallback [⟨2, 0, 0⟩] 1 1 1 (fun _ => 0) "mystery").1
     (by decide) (by decide),
   (c7_unknown_method_fallback [⟨2, 0, 0⟩] 1 1 1 (fun _ => 0) "mystery").2.1 (by decide),
   (c7_unknown_method_fallback [⟨2, 0, 0⟩] 1 1 1 (fun _ => 0) "mystery").2.2⟩

/-- C10: an input of at most `minPointsPerNode` points yields a leaf
root carrying the whole input, and the empty input yields a leaf root
with the `null` bounding-box sentinel, no points and no children. -/
theorem c10_small_input_leaf_root :
    ∀ (points : List Point) (maxDepth minPointsPerNode : ℕ),
      (points.length ≤ minPointsPerNode →
        buildOctree points maxDepth minPointsPerNode =
          ONode.lf (calculateBoundingBox points) points) ∧
      buildOctree [] maxDepth minPointsPerNode = ONode.lf none [] := by
  intro points maxDepth minP
  constructor
  · intro h
    have h2 : ¬ minP < points.length := by omega
    simp [buildOctree, h2]
  · have h2 : ¬ minP < ([] : List Point).length := by simp
    simp [buildOctree, h2, calculateBoundingBox]

/-- Witness for c10_small_input_leaf_root at a concrete one-point
input with the default parameters. -/
theorem c10_small_input_leaf_root_witness :
    ([⟨1, 2, 3⟩] : List Point).length ≤ 5 ∧
    buildOctree [⟨1, 2, 3⟩] 8 5 = ONode.lf (calculateBoundingBox [⟨1, 2, 3⟩]) [⟨1, 2, 3⟩] :=
  ⟨by decide, (c10_small_input_leaf_root [⟨1, 2, 3⟩] 8 5).1 (by decide)⟩

/-- C9: when the worker answers a request with an error, the promise
of each of the three entry points rejects with that error and
`processedPointData` keeps exactly its previous value. -/
theorem c9_error_preserves_state :
    ∀ (st : ProcState) (msg : String),
      settleProcessData st (WorkerReply.failure msg) = (st, PromiseOutcome.rejected msg) ∧
      settleApplyFilter st (WorkerReply.failure msg) = (st, PromiseOutcome.rejected msg) ∧
      settleApplyTransform st (WorkerReply.failure msg) = (st, PromiseOutcome.rejected msg) ∧
      (settleProcessData st (WorkerReply.failure msg)).1.processedPointData =
        st.processedPointData :=
  fun _ _ => ⟨rfl, rfl, rfl, rfl⟩

/-- C2 as amended: the statistical filter of the worker is a stub and
returns its input unchanged for every multiplier. -/
theorem c2_statistical_stub :
    ∀ (pts : List Point) (k : ℚ), statisticalOutlierRemoval pts k = pts :=
  fun _ _ => rfl

/-- C2 counterexample: on the 3-point set (0,0,0), (1,0,0), (10,0,0)
with multiplier 1, the outlier (10,0,0) has mean neighbor distance
19/2, above the spec threshold 20/3 + sqrt(73/18), yet the stub keeps
it, so the statistical filter does not keep exactly the points below
the threshold. -/
theorem c2_statistical_claim_cex :
    2 ≤ ([⟨0, 0, 0⟩, ⟨1, 0, 0⟩, ⟨10, 0, 0⟩] : List Point).length ∧
    (⟨10, 0, 0⟩ : Point) ∈ statisticalOutlierRemoval [⟨0, 0, 0⟩, ⟨1, 0, 0⟩, ⟨10, 0, 0⟩] 1 ∧
    ¬ (meanNeighborDist [⟨0, 0, 0⟩, ⟨1, 0, 0⟩, ⟨10, 0, 0⟩] ⟨10, 0, 0⟩ ≤
        globalMeanDist [⟨0, 0, 0⟩, ⟨1, 0, 0⟩, ⟨10, 0, 0⟩] +
          ((1 : ℚ) : ℝ) * globalStdDist [⟨0, 0, 0⟩, ⟨1, 0, 0⟩, ⟨10, 0, 0⟩]) := by
  have hsqrt100 : Real.sqrt 100 = 10 := by
    rw [show (100 : ℝ) = 10 ^ 2 by norm_num, Real.sqrt_sq (by norm_num : (0 : ℝ) ≤ 10)]
  have hsqrt81 : Real.sqrt 81 = 9 := by
    rw [show (81 : ℝ) = 9 ^ 2 by norm_num, Real.sqrt_sq (by norm_num : (0 : ℝ) ≤ 9)]
  have h01 : dist3D ⟨0, 0, 0⟩ ⟨1, 0, 0⟩ = 1 := by
    unfold dist3D; push_cast; norm_num
  have h02 : dist3D ⟨0, 0, 0⟩ ⟨10, 0, 0⟩ = 10 := by
    unfold dist3D; push_cast; norm_num [hsqrt100]
  have h10 : dist3D ⟨1, 0, 0⟩ ⟨0, 0, 0⟩ = 1 := by
    unfold dist3D; push_cast; norm_num
  have h12 : dist3D ⟨1, 0, 0⟩ ⟨10, 0, 0⟩ = 9 := by
    unfold dist3D; push_cast; norm_num [hsqrt81]
  have h20 : dist3D ⟨10, 0, 0⟩ ⟨0, 0, 0⟩ = 10 := by
    unfold dist3D; push_cast; norm_num [hsqrt100]
  have h21 : dist3D ⟨10, 0, 0⟩ ⟨1, 0, 0⟩ = 9 := by
    unfold dist3D; push_cast; norm_num [hsqrt81]
  have hf0 : (([⟨0, 0, 0⟩, ⟨1, 0, 0⟩, ⟨10, 0, 0⟩] : List Point).filter
      (fun q => decide (q ≠ ⟨0, 0, 0⟩))) = [⟨1, 0, 0⟩, ⟨10, 0, 0⟩] := by decide
  have hf1 : (([⟨0, 0, 0⟩, ⟨1, 0, 0⟩, ⟨10, 0, 0⟩] : List Point).filter
      (fun q => decide (q ≠ ⟨1, 0, 0⟩))) = [⟨0, 0, 0⟩, ⟨10, 0, 0⟩] := by decide
  have hf2 : (([⟨0, 0, 0⟩, ⟨1, 0, 0⟩, ⟨10, 0, 0⟩] : List Point).filter
      (fun q => decide (q ≠ ⟨10, 0, 0⟩))) = [⟨0, 0, 0⟩, ⟨1, 0, 0⟩] := by decide
  have hm0 : meanNeighborDist [⟨0, 0, 0⟩, ⟨1, 0, 0⟩, ⟨10, 0, 0⟩] ⟨0, 0, 0⟩ = 11 / 2 := by
    unfold meanNeighborDist
    rw [hf0]
    simp [h01, h02]
    norm_num
  have hm1 : meanNeighborDist [⟨0, 0, 0⟩, ⟨1, 0, 0⟩, ⟨10, 0, 0⟩] ⟨1, 0, 0⟩ = 5 := by
    unfold meanNeighborDist
    rw [hf1]
    simp [h10, h12]
    norm_num
  have hm2 : meanNeighborDist [⟨0, 0, 0⟩, ⟨1, 0, 0⟩, ⟨10, 0, 0⟩] ⟨10, 0, 0⟩ = 19 / 2 := by
    unfold meanNeighborDist
    rw [hf2]
    simp [h20, h21]
    norm_num
  have hgm : globalMeanDist [⟨0, 0, 0⟩, ⟨1, 0, 0⟩, ⟨10, 0, 0⟩] = 20 / 3 := by
    unfold globalMeanDist
    simp [hm0, hm1, hm2]
    norm_num
  have hgs : globalStdDist [⟨0, 0, 0⟩, ⟨1, 0, 0⟩, ⟨10, 0, 0⟩] = Real.sqrt (73 / 18) := by
    unfold globalStdDist
    rw [hgm]
    simp only [List.map_cons, List.map_nil, hm0, hm1, hm2, List.sum_cons, List.sum_nil,
      List.length_cons, List.length_nil]
    congr 1
    norm_num
  have hlt : Real.sqrt (73 / 18) < 17 / 6 := by
    rw [Real.sqrt_lt' (by norm_num : (0 : ℝ) < 17 / 6)]
    norm_num
  refine ⟨by norm_num, by decide, ?_⟩
  rw [hm2, hgm, hgs]
  push_cast
  intro hle
  linarith

/-- Expansion of the full homogeneous transform through the row-major
view of a flat matrix. -/
theorem applyMatrixSpec_rowMajor (m : List ℚ) (p : Point) :
    applyMatrixSpec (rowMajor m) p =
      ⟨(matAt m 0 * p.x + matAt m 1 * p.y + matAt m 2 * p.z + matAt m 3) /
        (matAt m 12 * p.x + matAt m 13 * p.y + matAt m 14 * p.z + matAt m 15),
       (matAt m 4 * p.x + matAt m 5 * p.y + matAt m 6 * p.z + matAt m 7) /
        (matAt m 12 * p.x + matAt m 13 * p.y + matAt m 14 * p.z + matAt m 15),
       (matAt m 8 * p.x + matAt m 9 * p.y + matAt m 10 * p.z + matAt m 11) /
        (matAt m 12 * p.x + matAt m 13 * p.y + matAt m 14 * p.z + matAt m 15)⟩ := by
  simp [applyMatrixSpec, rowMajor, Matrix.mulVec, Matrix.dotProduct, Fin.sum_univ_four,
    Matrix.cons_val_zero, Matrix.cons_val_one, Matrix.head_cons,
    Matrix.vecHead, Matrix.vecTail, Function.comp]
  refine ⟨by ring_nf; trivial, by ring_nf; trivial, by ring_nf; trivial⟩

/-- Expansion of the affine three-row application through the
row-major view of a flat matrix. -/
theorem affineRowApplySpec_rowMajor (m : List ℚ) (p : Point) :
    affineRowApplySpec (rowMajor m) p =
      ⟨matAt m 0 * p.x + matAt m 1 * p.y + matAt m 2 * p.z + matAt m 3,
       matAt m 4 * p.x + matAt m 5 * p.y + matAt m 6 * p.z + matAt m 7,
       matAt m 8 * p.x + matAt m 9 * p.y + matAt m 10 * p.z + matAt m 11⟩ := by
  simp [affineRowApplySpec, rowMajor, Matrix.mulVec, Matrix.dotProduct, Fin.sum_univ_four,
    Matrix.cons_val_zero, Matrix.cons_val_one, Matrix.head_cons,
    Matrix.vecHead, Matrix.vecTail, Function.comp]
  refine ⟨by ring_nf; trivial, by ring_nf; trivial, by ring_nf; trivial⟩

/-- Expansion of the full homogeneous transform through the
column-major view of a flat matrix. -/
theorem applyMatrixSpec_colMajor (m : List ℚ) (p : Point) :
    applyMatrixSpec (colMajor m) p =
      ⟨(matAt m 0 * p.x + matAt m 4 * p.y + matAt m 8 * p.z + matAt m 12) /
        (matAt m 3 * p.x + matAt m 7 * p.y + matAt m 11 * p.z + matAt m 15),
       (matAt m 1 * p.x + matAt m 5 * p.y + matAt m 9 * p.z + matAt m 13) /
        (matAt m 3 * p.x + matAt m 7 * p.y + matAt m 11 * p.z + matAt m 15),
       (matAt m 2 * p.x + matAt m 6 * p.y + matAt m 10 * p.z + matAt m 14) /
        (matAt m 3 * p.x + matAt m 7 * p.y + matAt m 11 * p.z + matAt m 15)⟩ := by
  simp [applyMatrixSpec, colMajor, Matrix.mulVec, Matrix.dotProduct, Fin.sum_univ_four,
    Matrix.cons_val_zero, Matrix.cons_val_one, Matrix.head_cons,
    Matrix.vecHead, Matrix.vecTail, Function.comp]
  refine ⟨by ring_nf; trivial, by ring_nf; trivial, by ring_nf; trivial⟩

/-- C3 counterexample: for the row-major matrix that is the identity
except for a w-scale entry of 2, the worker transform leaves the
point unchanged while the full homogeneous transform with w division
would halve it, so the worker transform is not the full homogeneous
transform. -/
theorem c3_transform_cex :
    applyTransformation [⟨1, 2, 3⟩] [1, 0, 0, 0, 0, 1, 0, 0, 0, 0, 1, 0, 0, 0, 0, 2] ≠
      ([⟨1, 2, 3⟩] : List Point).map
        (applyMatrixSpec (rowMajor [1, 0, 0, 0, 0, 1, 0, 0, 0, 0, 1, 0, 0, 0, 0, 2])) := by
  rw [List.map_cons, applyMatrixSpec_rowMajor]
  norm_num [applyTransformation, matAt, List.getD]

/-- C3 as amended: the worker transform applies only the first three
rows of the row-major matrix to `(x, y, z, 1)` with no division by w,
while the local fallback `applyTransformLocal` performs the full
homogeneous transform (column-major) with division by w; both
preserve the length of the point set. -/
theorem c3_transform_amended :
    ∀ (pts : List Point) (m : List ℚ),
      applyTransformation pts m = pts.map (affineRowApplySpec (rowMajor m)) ∧
      (applyTransformation pts m).length = pts.length ∧
      applyTransformLocal pts m = pts.map (applyMatrixSpec (colMajor m)) ∧
      (applyTransformLocal pts m).length = pts.length := by
  intro pts m
  refine ⟨?_, by simp [applyTransformation], ?_, by simp [applyTransformLocal]⟩
  · simp only [applyTransformation]
    exact List.map_congr_left fun p _ => (affineRowApplySpec_rowMajor m p).symm
  · simp only [applyTransformLocal]
    exact List.map_congr_left fun p _ => (applyMatrixSpec_colMajor m p).symm

/-- The child octant index is one of 0..7. -/
theorem childIndex_le_seven (mid p : Point) : childIndex mid p ≤ 7 := by
  unfold childIndex
  split_ifs <;> norm_num

/-- Occurrence count of a point in one octant of a node. -/
theorem count_octantPoints (bb : BBox) (pts : List Point) (i : ℕ) (q : Point) :
    (octantPoints bb pts i).count q =
      if childIndex (bbMid bb) q = i then pts.count q else 0 := by
  unfold octantPoints
  by_cases h : childIndex (bbMid bb) q = i
  · rw [if_pos h, List.count_filter (by simpa using h)]
  · rw [if_neg h]
    refine List.count_eq_zero.mpr ?_
    intro hmem
    exact h (by simpa using (List.mem_filter.mp hmem).2)

/-- The eight octants of a node partition its point list, up to
permutation. -/
theorem octant_append_perm (bb : BBox) (pts : List Point) :
    (octantPoints bb pts 0 ++ octantPoints bb pts 1 ++ octantPoints bb pts 2 ++
      octantPoints bb pts 3 ++ octantPoints bb pts 4 ++ octantPoints bb pts 5 ++
      octantPoints bb pts 6 ++ octantPoints bb pts 7).Perm pts := by
  rw [List.perm_iff_count]
  intro q
  simp only [List.count_append, count_octantPoints]
  have h7 : childIndex (bbMid bb) q ≤ 7 := childIndex_le_seven _ _
  set k := childIndex (bbMid bb) q with hk
  interval_cases k <;> simp

/-- The leaves of a subdivided node carry a permutation of the points
the node received. -/
theorem leafPoints_subdivideNode (minP : ℕ) :
    ∀ (r : ℕ) (bb : BBox) (pts : List Point),
      (leafPoints (subdivideNode minP bb pts r)).Perm pts := by
  intro r
  induction r with
  | zero =>
    intro bb pts
    simpa [subdivideNode, leafPoints] using octant_append_perm bb pts
  | succ r ih =>
    intro bb pts
    have hchild : ∀ i : ℕ,
        (leafPoints (if minP < (octantPoints bb pts i).length then
            subdivideNode minP (octChildBox bb i) (octantPoints bb pts i) r
          else ONode.lf (some (octChildBox bb i)) (octantPoints bb pts i))).Perm
          (octantPoints bb pts i) := by
      intro i
      split
      · exact ih _ _
      · simp [leafPoints]
    simp only [subdivideNode, leafPoints]
    refine List.Perm.trans ?_ (octant_append_perm bb pts)
    exact ((((((((hchild 0).append (hchild 1)).append (hchild 2)).append
      (hchild 3)).append (hchild 4)).append (hchild 5)).append (hchild 6)).append (hchild 7))

/-- Every non-leaf node produced by subdivision has an empty direct
point list. -/
theorem internal_empty_subdivideNode (minP : ℕ) :
    ∀ (r : ℕ) (bb : BBox) (pts : List Point) (d : ℕ) (n : ONode) (k : ℕ),
      (n, k) ∈ subnodesFrom (subdivideNode minP bb pts r) d →
      isLeaf n = false → directPoints n = [] := by
  intro r
  induction r with
  | zero =>
    intro bb pts d n k hm hl
    simp only [subdivideNode, subnodesFrom, List.mem_cons, List.mem_append,
      List.mem_singleton, List.not_mem_nil, or_false, or_assoc] at hm
    rcases hm with h | h | h | h | h | h | h | h | h <;>
      (rw [Prod.mk.injEq] at h; rcases h with ⟨rfl, rfl⟩)
    · rfl
    all_goals simp [isLeaf] at hl
  | succ r ih =>
    intro bb pts d n k hm hl
    have hchild : ∀ i : ℕ,
        (n, k) ∈ subnodesFrom (if minP < (octantPoints bb pts i).length then
            subdivideNode minP (octChildBox bb i) (octantPoints bb pts i) r
          else ONode.lf (some (octChildBox bb i)) (octantPoints bb pts i)) (d + 1) →
        directPoints n = [] := by
      intro i h
      split at h
      · exact ih _ _ _ _ _ h hl
      · simp only [subnodesFrom, List.mem_singleton, Prod.mk.injEq] at h
        rcases h with ⟨rfl, rfl⟩
        simp [isLeaf] at hl
    simp only [subdivideNode, subnodesFrom] at hm
    rw [List.mem_cons] at hm
    simp only [List.mem_append, or_assoc] at hm
    rcases hm with h | h | h | h | h | h | h | h | h
    · rw [Prod.mk.injEq] at h
      rcases h with ⟨rfl, rfl⟩
      rfl
    · exact hchild 0 h
    · exact hchild 1 h
    · exact hchild 2 h
    · exact hchild 3 h
    · exact hchild 4 h
    · exact hchild 5 h
    · exact hchild 6 h
    · exact hchild 7 h

/-- A node or subnode is a member of its own subnode listing. -/
theorem self_mem_subnodesFrom (t : ONode) (d : ℕ) : (t, d) ∈ subnodesFrom t d := by
  cases t <;> simp [subnodesFrom]

/-- C1: in every built octree, each internal node holds no direct
points, and the concatenation of all leaf point lists is a
permutation of the input (no point lost, none duplicated). -/
theorem c1_octree_partition :
    ∀ (points : List Point) (maxDepth minPointsPerNode : ℕ),
      (∀ (n : ONode) (k : ℕ),
        (n, k) ∈ subnodesFrom (buildOctree points maxDepth minPointsPerNode) 0 →
        isLeaf n = false → directPoints n = []) ∧
      (leafPoints (buildOctree points maxDepth minPointsPerNode)).Perm points := by
  intro points maxD minP
  by_cases h : minP < points.length
  · cases hbb : calculateBoundingBox points with
    | none =>
      cases points with
      | nil => simp at h
      | cons p ps => simp [calculateBoundingBox] at hbb
    | some bb =>
      simp only [buildOctree, if_pos h, hbb]
      exact ⟨fun n k hm hl => internal_empty_subdivideNode minP maxD bb points 0 n k hm hl,
        leafPoints_subdivideNode minP maxD bb points⟩
  · simp only [buildOctree, if_neg h]
    refine ⟨?_, by simp [leafPoints]⟩
    intro n k hm hl
    simp only [subnodesFrom, List.mem_singleton, Prod.mk.injEq] at hm
    rcases hm with ⟨rfl, rfl⟩
    simp [isLeaf] at hl

/-- Witness for c1_octree_partition: on a concrete subdivided tree the
root is internal with an empty direct point list, and the leaves
carry a permutation of the input. -/
theorem c1_octree_partition_witness :
    directPoints (buildOctree [⟨0, 0, 0⟩, ⟨1, 0, 0⟩] 0 1) = [] ∧
    (leafPoints (buildOctree [⟨0, 0, 0⟩, ⟨1, 0, 0⟩] 0 1)).Perm [⟨0, 0, 0⟩, ⟨1, 0, 0⟩] :=
  ⟨(c1_octree_partition [⟨0, 0, 0⟩, ⟨1, 0, 0⟩] 0 1).1 _ 0 (self_mem_subnodesFrom _ 0)
      (by norm_num [buildOctree, calculateBoundingBox, subdivideNode, isLeaf]),
   (c1_octree_partition [⟨0, 0, 0⟩, ⟨1, 0, 0⟩] 0 1).2⟩

/-- Leaf characterization for subdivided nodes: a node of the subtree
rooted at a subdivided node (whose root sits at depth `d` with
remaining budget `r`) is a leaf exactly when its subtree point count
is at most `minPointsPerNode` or its depth is `d + r + 1`. -/
theorem leafIff_subdivideNode (minP : ℕ) :
    ∀ (r : ℕ) (bb : BBox) (pts : List Point) (d : ℕ),
      minP < pts.length →
      ∀ (n : ONode) (k : ℕ), (n, k) ∈ subnodesFrom (subdivideNode minP bb pts r) d →
        (isLeaf n = true ↔ ((leafPoints n).length ≤ minP ∨ k = d + r + 1)) := by
  intro r
  induction r with
  | zero =>
    intro bb pts d hlen n k hm
    have hperm := leafPoints_subdivideNode minP 0 bb pts
    simp only [subdivideNode] at hperm
    simp only [subdivideNode, subnodesFrom, List.mem_cons, List.mem_append,
      List.mem_singleton, List.not_mem_nil, or_false, or_assoc] at hm
    rcases hm with h | h | h | h | h | h | h | h | h <;>
      (rw [Prod.mk.injEq] at h; rcases h with ⟨rfl, rfl⟩)
    · constructor
      · intro hc
        simp [isLeaf] at hc
      · intro hc
        exfalso
        have hlen2 := hperm.length_eq
        rcases hc with hc | hc
        · omega
        · omega
    all_goals
      exact iff_of_true rfl (Or.inr (by omega))
  | succ r ih =>
    intro bb pts d hlen n k hm
    have hperm := leafPoints_subdivideNode minP (r + 1) bb pts
    simp only [subdivideNode] at hperm
    have hchild : ∀ i : ℕ,
        (n, k) ∈ subnodesFrom (if minP < (octantPoints bb pts i).length then
            subdivideNode minP (octChildBox bb i) (octantPoints bb pts i) r
          else ONode.lf (some (octChildBox bb i)) (octantPoints bb pts i)) (d + 1) →
        (isLeaf n = true ↔ ((leafPoints n).length ≤ minP ∨ k = d + (r + 1) + 1)) := by
      intro i h
      by_cases hcond : minP < (octantPoints bb pts i).length
      · rw [if_pos hcond] at h
        have hiff := ih (octChildBox bb i) (octantPoints bb pts i) (d + 1) hcond n k h
        have heq : d + 1 + r + 1 = d + (r + 1) + 1 := by omega
        rw [heq] at hiff
        exact hiff
      · rw [if_neg hcond] at h
        simp only [subnodesFrom, List.mem_singleton, Prod.mk.injEq] at h
        rcases h with ⟨rfl, rfl⟩
        exact iff_of_true rfl (Or.inl (by simpa [leafPoints] using hcond))
    simp only [subdivideNode, subnodesFrom] at hm
    rw [List.mem_cons] at hm
    simp only [List.mem_append, or_assoc] at hm
    rcases hm with h | h | h | h | h | h | h | h | h
    · rw [Prod.mk.injEq] at h
      rcases h with ⟨rfl, rfl⟩
      constructor
      · intro hc
        simp [isLeaf] at hc
      · intro hc
        exfalso
        have hlen2 := hperm.length_eq
        rcases hc with hc | hc
        · omega
        · omega
    · exact hchild 0 h
    · exact hchild 1 h
    · exact hchild 2 h
    · exact hchild 3 h
    · exact hchild 4 h
    · exact hchild 5 h
    · exact hchild 6 h
    · exact hchild 7 h

/-- C5 counterexample: with `maxDepth = 0` and `minPointsPerNode = 1`,
the root of a 2-point build sits at depth 0 = maxDepth yet is
subdivided (it has children), so a node is not a leaf exactly when
its depth equals maxDepth or its point count is small enough. -/
theorem c5_octree_leaf_claim_cex :
    ¬ (∀ (n : ONode) (k : ℕ),
        (n, k) ∈ subnodesFrom (buildOctree [⟨0, 0, 0⟩, ⟨1, 0, 0⟩] 0 1) 0 →
        (isLeaf n = true ↔ (k = 0 ∨ (leafPoints n).length ≤ 1))) := by
  intro hclaim
  have hroot := hclaim (buildOctree [⟨0, 0, 0⟩, ⟨1, 0, 0⟩] 0 1) 0 (self_mem_subnodesFrom _ 0)
  have hfalse : isLeaf (buildOctree [⟨0, 0, 0⟩, ⟨1, 0, 0⟩] 0 1) = false := by
    norm_num [buildOctree, calculateBoundingBox, subdivideNode, isLeaf]
  rw [hfalse] at hroot
  exact Bool.false_ne_true (hroot.mpr (Or.inl rfl))

/-- C5 as amended: in the tree built by
`buildOctree points maxDepth minPointsPerNode`, a node at depth `k`
is a leaf exactly when its subtree point count is at most
`minPointsPerNode` or `k = maxDepth + 1`; equivalently a node is
subdivided exactly when it holds more than `minPointsPerNode` points
and its depth is at most `maxDepth` (the depth guard is only checked
before recursing, so nodes at depth `maxDepth` are still subdivided
and leaves appear down to depth `maxDepth + 1`). -/
theorem c5_octree_leaf_condition :
    ∀ (points : List Point) (maxDepth minPointsPerNode : ℕ),
      ∀ (n : ONode) (k : ℕ),
        (n, k) ∈ subnodesFrom (buildOctree points maxDepth minPointsPerNode) 0 →
        (isLeaf n = true ↔
          ((leafPoints n).length ≤ minPointsPerNode ∨ k = maxDepth + 1)) := by
  intro points maxD minP n k hm
  by_cases h : minP < points.length
  · cases hbb : calculateBoundingBox points with
    | none =>
      cases points with
      | nil => simp at h
      | cons p ps => simp [calculateBoundingBox] at hbb
    | some bb =>
      simp only [buildOctree, if_pos h, hbb] at hm
      have hiff := leafIff_subdivideNode minP maxD bb points 0 h n k hm
      simpa using hiff
  · simp only [buildOctree, if_neg h] at hm
    simp only [subnodesFrom, List.mem_singleton, Prod.mk.injEq] at hm
    rcases hm with ⟨rfl, rfl⟩
    exact iff_of_true rfl (Or.inl (by simpa [leafPoints] using h))

/-- Witness for c5_octree_leaf_condition: the root of a concrete
2-point build with maxDepth 0 satisfies the leaf characterization. -/
theorem c5_octree_leaf_condition_witness :
    ((buildOctree [⟨0, 0, 0⟩, ⟨1, 0, 0⟩] 0 1, 0) ∈
        subnodesFrom (buildOctree [⟨0, 0, 0⟩, ⟨1, 0, 0⟩] 0 1) 0) ∧
    (isLeaf (buildOctree [⟨0, 0, 0⟩, ⟨1, 0, 0⟩] 0 1) = true ↔
      ((leafPoints (buildOctree [⟨0, 0, 0⟩, ⟨1, 0, 0⟩] 0 1)).length ≤ 1 ∨ (0 : ℕ) = 0 + 1)) :=
  ⟨self_mem_subnodesFrom _ 0,
   c5_octree_leaf_condition [⟨0, 0, 0⟩, ⟨1, 0, 0⟩] 0 1 _ 0 (self_mem_subnodesFrom _ 0)⟩

/-- Membership in a first-occurrence deduplication. -/
theorem mem_dedupFirst {α : Type} [DecidableEq α] : ∀ (l : List α) (a : α),
    a ∈ dedupFirst l ↔ a ∈ l := by
  intro l
  induction l using dedupFirst.induct with
  | case1 => simp [dedupFirst]
  | case2 b l ih =>
    intro a
    rw [dedupFirst]
    simp only [List.mem_cons, ih, List.mem_filter]
    by_cases hab : a = b
    · simp [hab]
    · simp [hab]

/-- A first-occurrence deduplication has no duplicates. -/
theorem nodup_dedupFirst {α : Type} [DecidableEq α] : ∀ (l : List α),
    (dedupFirst l).Nodup := by
  intro l
  induction l using dedupFirst.induct with
  | case1 => simp [dedupFirst]
  | case2 b l ih =>
    rw [dedupFirst]
    refine List.Nodup.cons ?_ ih
    intro hmem
    rw [mem_dedupFirst] at hmem
    simp at hmem

/-- First-occurrence deduplications of permuted lists are permuted. -/
theorem dedupFirst_perm {α : Type} [DecidableEq α] {l l' : List α} (h : l.Perm l') :
    (dedupFirst l).Perm (dedupFirst l') := by
  apply List.perm_of_nodup_nodup_toFinset_eq (nodup_dedupFirst l) (nodup_dedupFirst l')
  ext a
  simp [List.mem_toFinset, mem_dedupFirst, h.mem_iff]

/-- A point whose key matches goes to the head of its group. -/
theorem groupOf_cons_eq (vs : ℚ) (p : Point) (ps : List Point) (k : ℤ × ℤ × ℤ)
    (h : voxelKey vs p = k) : groupOf vs (p :: ps) k = p :: groupOf vs ps k := by
  simp [groupOf, List.filter_cons, h]

/-- A point whose key differs does not change a group. -/
theorem groupOf_cons_ne (vs : ℚ) (p : Point) (ps : List Point) (k : ℤ × ℤ × ℤ)
    (h : voxelKey vs p ≠ k) : groupOf vs (p :: ps) k = groupOf vs ps k := by
  simp [groupOf, List.filter_cons, h]

/-- Bumping by an empty remainder changes nothing. -/
theorem bump_nil (vs : ℚ) (e : VoxelEntry) : bump vs [] e = e := by
  cases e
  simp [bump, groupOf]

/-- Characterization of the voxel accumulation loop: starting from any
accumulator, the final association list is the bumped accumulator
followed by one fully aggregated entry per new key in first-occurrence
order. -/
theorem foldl_addToVoxels (vs : ℚ) :
    ∀ (pts : List Point) (acc : List VoxelEntry),
      pts.foldl (addToVoxels vs) acc =
        acc.map (bump vs pts) ++
          (dedupFirst ((pts.map (voxelKey vs)).filter
            (fun k => decide (k ∉ acc.map VoxelEntry.key)))).map (entryFor vs pts) := by
  intro pts
  induction pts with
  | nil =>
    intro acc
    simp only [List.foldl_nil, List.map_nil, List.filter_nil, dedupFirst, List.append_nil]
    conv_lhs => rw [← List.map_id acc]
    exact List.map_congr_left fun e _ => (bump_nil vs e).symm
  | cons p ps ih =>
    intro acc
    rw [List.foldl_cons]
    by_cases hmem : (voxelKey vs p) ∈ acc.map VoxelEntry.key
    · have hany : acc.any (fun e => decide (e.key = voxelKey vs p)) = true := by
        rw [List.any_eq_true]
        rcases List.mem_map.mp hmem with ⟨e, he, hek⟩
        exact ⟨e, he, by simpa using hek⟩
      have haddv : addToVoxels vs acc p = acc.map (fun e =>
          if e.key = voxelKey vs p then
            { key := e.key, sx := e.sx + p.x, sy := e.sy + p.y, sz := e.sz + p.z,
              count := e.count + 1 }
          else e) := by
        simp only [addToVoxels]
        rw [if_pos hany]
      rw [haddv, ih]
      have hkeys : (acc.map (fun e =>
          if e.key = voxelKey vs p then
            { key := e.key, sx := e.sx + p.x, sy := e.sy + p.y, sz := e.sz + p.z,
              count := e.count + 1 }
          else e)).map VoxelEntry.key = acc.map VoxelEntry.key := by
        rw [List.map_map]
        refine List.map_congr_left fun e _ => ?_
        by_cases h : e.key = voxelKey vs p <;> simp [Function.comp, h]
      rw [hkeys]
      congr 1
      · rw [List.map_map]
        refine List.map_congr_left fun e _ => ?_
        by_cases h : e.key = voxelKey vs p
        · simp only [Function.comp_apply, if_pos h]
          unfold bump
          rw [groupOf_cons_eq vs p ps e.key h.symm]
          simp only [List.map_cons, List.sum_cons, List.length_cons, VoxelEntry.mk.injEq]
          and_intros <;> first | rfl | trivial | ring | omega
        · simp only [Function.comp_apply, if_neg h]
          unfold bump
          rw [groupOf_cons_ne vs p ps e.key (fun hh => h hh.symm)]
      · have hfl : ((p :: ps).map (voxelKey vs)).filter
            (fun k => decide (k ∉ acc.map VoxelEntry.key)) =
            (ps.map (voxelKey vs)).filter
              (fun k => decide (k ∉ acc.map VoxelEntry.key)) := by
          rw [List.map_cons, List.filter_cons]
          simp [hmem]
        rw [hfl]
        refine List.map_congr_left fun q hq => ?_
        have hqmem := (mem_dedupFirst _ _).mp hq
        have hqnotin := (List.mem_filter.mp hqmem).2
        have hqne : voxelKey vs p ≠ q := by
          intro hcontra
          rw [hcontra] at hmem
          simp only [decide_eq_true_eq] at hqnotin
          exact hqnotin hmem
        unfold entryFor
        rw [groupOf_cons_ne vs p ps q hqne]
    · have hany : acc.any (fun e => decide (e.key = voxelKey vs p)) = false := by
        rw [← Bool.not_eq_true, List.any_eq_true]
        rintro ⟨e, he, hek⟩
        exact hmem (List.mem_map.mpr ⟨e, he, by simpa using hek⟩)
      have haddv : addToVoxels vs acc p = acc ++
          [{ key := voxelKey vs p, sx := p.x, sy := p.y, sz := p.z, count := 1 }] := by
        simp only [addToVoxels]
        rw [if_neg (by simp [hany])]
      rw [haddv, ih]
      have hkeys1 : (acc ++ ([{ key := voxelKey vs p, sx := p.x, sy := p.y, sz := p.z, count := 1 }] : List VoxelEntry)).map VoxelEntry.key = acc.map VoxelEntry.key ++ [voxelKey vs p] := by
        simp
      simp only [hkeys1]
      have htarget : ((p :: ps).map (voxelKey vs)).filter
          (fun k => decide (k ∉ acc.map VoxelEntry.key)) =
          voxelKey vs p :: ((ps.map (voxelKey vs)).filter
            (fun k => decide (k ∉ acc.map VoxelEntry.key))) := by
        rw [List.map_cons, List.filter_cons]
        simp [hmem]
      rw [htarget, dedupFirst]
      have hff : (((ps.map (voxelKey vs)).filter
            (fun k => decide (k ∉ acc.map VoxelEntry.key))).filter
              (fun b => decide (b ≠ voxelKey vs p))) =
          (ps.map (voxelKey vs)).filter
            (fun k => decide (k ∉ (acc.map VoxelEntry.key ++ [voxelKey vs p]))) := by
        rw [List.filter_filter]
        refine List.filter_congr fun x hx => ?_
        by_cases h1 : x ∈ acc.map VoxelEntry.key <;> by_cases h2 : x = voxelKey vs p <;>
          simp [h1, h2]
      rw [hff]
      rw [List.map_append, List.map_cons, List.map_cons, List.map_nil]
      have hmap1 : acc.map (bump vs ps) = acc.map (bump vs (p :: ps)) := by
        refine List.map_congr_left fun e he => ?_
        have hek : e.key ∈ acc.map VoxelEntry.key := List.mem_map.mpr ⟨e, he, rfl⟩
        have hek2 : voxelKey vs p ≠ e.key := fun hc => hmem (hc ▸ hek)
        unfold bump
        rw [groupOf_cons_ne vs p ps e.key hek2]
      have hmap2 : bump vs ps ({ key := voxelKey vs p, sx := p.x, sy := p.y, sz := p.z, count := 1 } : VoxelEntry) = entryFor vs (p :: ps) (voxelKey vs p) := by
        unfold bump entryFor
        rw [groupOf_cons_eq vs p ps (voxelKey vs p) rfl]
        simp only [List.map_cons, List.sum_cons, List.length_cons, VoxelEntry.mk.injEq]
        and_intros <;> first | rfl | trivial | ring | omega
      have hmap3 : (dedupFirst ((ps.map (voxelKey vs)).filter
            (fun k => decide (k ∉ (acc.map VoxelEntry.key ++ [voxelKey vs p]))))).map
              (entryFor vs ps) =
          (dedupFirst ((ps.map (voxelKey vs)).filter
            (fun k => decide (k ∉ (acc.map VoxelEntry.key ++ [voxelKey vs p]))))).map
              (entryFor vs (p :: ps)) := by
        refine List.map_congr_left fun q hq => ?_
        have hqmem := (mem_dedupFirst _ _).mp hq
        have hqnotin := (List.mem_filter.mp hqmem).2
        have hqne : voxelKey vs p ≠ q := by
          intro hcontra
          simp only [decide_eq_true_eq, List.mem_append, List.mem_singleton, not_or] at hqnotin
          exact hqnotin.2 hcontra.symm
        unfold entryFor
        rw [groupOf_cons_ne vs p ps q hqne]
      rw [hmap1, hmap2, hmap3]
      rw [List.append_assoc, List.singleton_append]

/-- The voxel downsampler emits one centroid per occupied voxel, in
first-occurrence key order. -/
theorem voxelDownsampling_eq (vs : ℚ) (pts : List Point) :
    voxelDownsampling pts vs =
      (dedupFirst (pts.map (voxelKey vs))).map (fun k => centroid (groupOf vs pts k)) := by
  unfold voxelDownsampling
  rw [foldl_addToVoxels]
  simp only [List.map_nil, List.nil_append]
  have hft : (pts.map (voxelKey vs)).filter
      (fun k => decide (k ∉ ([] : List (ℤ × ℤ × ℤ)))) =
      pts.map (voxelKey vs) := by
    simp
  rw [hft, List.map_map]
  refine List.map_congr_left fun k _ => ?_
  simp [Function.comp, entryFor, centroid]

/-- Permuting the input permutes the voxel downsampling output. -/
theorem voxelDownsampling_perm (vs : ℚ) {pts pts2 : List Point} (h : pts.Perm pts2) :
    (voxelDownsampling pts vs).Perm (voxelDownsampling pts2 vs) := by
  rw [voxelDownsampling_eq, voxelDownsampling_eq]
  have hgroup : ∀ k, centroid (groupOf vs pts2 k) = centroid (groupOf vs pts k) := by
    intro k
    have hp : (groupOf vs pts k).Perm (groupOf vs pts2 k) := h.filter _
    unfold centroid
    rw [hp.length_eq, (hp.map Point.x).sum_eq, (hp.map Point.y).sum_eq, (hp.map Point.z).sum_eq]
  have hkeys : (dedupFirst (pts.map (voxelKey vs))).Perm (dedupFirst (pts2.map (voxelKey vs))) :=
    dedupFirst_perm (h.map _)
  refine (hkeys.map _).trans ?_
  rw [List.map_congr_left fun k _ => hgroup k]

/-- C4: voxel downsampling groups points by the floor-quotient integer
key, outputs exactly one point per occupied voxel equal to the
arithmetic-mean centroid of that voxel, is order-independent as a
multiset, and maps the 8 unit-cube corners with voxelSize 2 to the
single point (1/2, 1/2, 1/2). -/
theorem c4_voxel_downsampling :
    (∀ (voxelSize : ℚ) (pts : List Point), 0 < voxelSize →
      voxelDownsampling pts voxelSize =
        (dedupFirst (pts.map (voxelKey voxelSize))).map
          (fun k => centroid (groupOf voxelSize pts k)) ∧
      ∀ pts2 : List Point, pts.Perm pts2 →
        ((voxelDownsampling pts voxelSize : List Point) : Multiset Point) =
          ((voxelDownsampling pts2 voxelSize : List Point) : Multiset Point)) ∧
    voxelDownsampling
        [⟨0, 0, 0⟩, ⟨1, 0, 0⟩, ⟨0, 1, 0⟩, ⟨1, 1, 0⟩, ⟨0, 0, 1⟩, ⟨1, 0, 1⟩, ⟨0, 1, 1⟩, ⟨1, 1, 1⟩]
        2 = [⟨1 / 2, 1 / 2, 1 / 2⟩] := by
  constructor
  · intro voxelSize pts hvs
    refine ⟨voxelDownsampling_eq voxelSize pts, fun pts2 h => ?_⟩
    exact Multiset.coe_eq_coe.mpr (voxelDownsampling_perm voxelSize h)
  · norm_num [voxelDownsampling, addToVoxels, voxelKey]

/-- Witness for c4_voxel_downsampling: the unit cube with voxelSize 2,
compared against its reversal. -/
theorem c4_voxel_downsampling_witness :
    (0 : ℚ) < 2 ∧
    (([⟨0, 0, 0⟩, ⟨1, 0, 0⟩, ⟨0, 1, 0⟩, ⟨1, 1, 0⟩, ⟨0, 0, 1⟩, ⟨1, 0, 1⟩, ⟨0, 1, 1⟩,
        ⟨1, 1, 1⟩] : List Point)).Perm
      ([⟨0, 0, 0⟩, ⟨1, 0, 0⟩, ⟨0, 1, 0⟩, ⟨1, 1, 0⟩, ⟨0, 0, 1⟩, ⟨1, 0, 1⟩, ⟨0, 1, 1⟩,
        ⟨1, 1, 1⟩] : List Point).reverse ∧
    ((voxelDownsampling
        [⟨0, 0, 0⟩, ⟨1, 0, 0⟩, ⟨0, 1, 0⟩, ⟨1, 1, 0⟩, ⟨0, 0, 1⟩, ⟨1, 0, 1⟩, ⟨0, 1, 1⟩, ⟨1, 1, 1⟩]
        2 : List Point) : Multiset Point) =
      ((voxelDownsampling
        ([⟨0, 0, 0⟩, ⟨1, 0, 0⟩, ⟨0, 1, 0⟩, ⟨1, 1, 0⟩, ⟨0, 0, 1⟩, ⟨1, 0, 1⟩, ⟨0, 1, 1⟩,
          ⟨1, 1, 1⟩] : List Point).reverse 2 : List Point) : Multiset Point) :=
  ⟨by norm_num, (List.reverse_perm _).symm,
   (c4_voxel_downsampling.1 2 _ (by norm_num)).2 _ (List.reverse_perm _).symm⟩


end ThreeDScan
